import Mathlib

/-!
# Shallow embedding of the AI-Trader settlement engine

This file embeds the two source files of the repository:

* `settlement_logic.py` — `run_daily_settlement` and `_save_position_record`;
* `agent_tools/tool_trade_limit.py` — `place_limit_buy_order` and
  `place_limit_sell_order`.

Modelling conventions:

* Python numbers (cash, prices, amounts) are modelled by `ℚ`; holdings
  dictionaries (`settled_position`, `shares_bought_today_cn`) are association
  lists `Dict := List (String × ℚ)` with Python `dict.get(k, d)` /
  `d[k] = v` / `d[k]` semantics.
* A Python `KeyError` raised by `d[k] -= v` on a missing key, or by a missing
  field of an order dict, is modelled by `Except Unit` (the `.error` case);
  an uncaught exception aborts the whole settlement run with nothing appended.
* File I/O is passed in explicitly: the parsed position ledger, the parsed
  pending-orders file (with `none` standing for a line that fails JSON
  parsing and is skipped), the price oracle as a function, and a flag for
  whether the final append raises (the source catches and only prints that
  exception).
-/

namespace AITrader

/-- Python dict with string keys and numeric values. -/
abbrev Dict := List (String × ℚ)

namespace Dict

/-- `d.get(k, dflt)` — lookup with default, as in Python. -/
def get : Dict → String → ℚ → ℚ
  | [], _, dflt => dflt
  | (k', v') :: rest, k, dflt => if k' = k then v' else get rest k dflt

/-- `d[k]` — lookup that can fail (Python raises `KeyError`). -/
def find : Dict → String → Option ℚ
  | [], _ => none
  | (k', v') :: rest, k => if k' = k then some v' else find rest k

/-- `d[k] = v` — assignment: replace the first binding of `k`, or append. -/
def set : Dict → String → ℚ → Dict
  | [], k, v => [(k, v)]
  | (k', v') :: rest, k, v =>
      if k' = k then (k, v) :: rest else (k', v') :: set rest k v

/-- All values reachable by lookup are non-negative (absent keys read as 0). -/
def Nonneg (d : Dict) : Prop := ∀ k : String, 0 ≤ d.get k 0

end Dict

/-- One entry of the mapping returned by `get_high_low_prices`:
the per-symbol dict, whose `'low'` / `'high'` keys may be absent. -/
structure PriceEntry where
  low : Option ℚ
  high : Option ℚ
deriving DecidableEq

/-- Market data for one batch: `none` models `symbol not in market_data`,
`some none` models `market_data[symbol] is None`. -/
def MarketData := String → Option (Option PriceEntry)

/-- A well-formed pending order, after all six dict fields have been read. -/
structure Order where
  timestamp : ℚ
  action : String
  symbol : String
  amount : ℚ
  limit_price : ℚ
  market : String
deriving DecidableEq

/-- A parsed pending-order line: each field is `none` when the key is
missing from the JSON object (reading it raises `KeyError`). -/
structure RawOrder where
  timestamp? : Option ℚ
  action? : Option String
  symbol? : Option String
  amount? : Option ℚ
  limit_price? : Option ℚ
  market? : Option String
deriving DecidableEq

/-- Read all six fields of an order dict; `none` when any is missing
(the loop body of `run_daily_settlement` reads every one of them). -/
def RawOrder.extract (r : RawOrder) : Option Order :=
  match r.timestamp?, r.action?, r.symbol?, r.amount?, r.limit_price?, r.market? with
  | some t, some a, some s, some q, some lp, some m =>
      some ⟨t, a, s, q, lp, m⟩
  | _, _, _, _, _, _ => none

/-- Read the fields of every order in the list; `none` as soon as one order
has a missing field (the uncaught `KeyError`). -/
def extractAll : List RawOrder → Option (List Order)
  | [] => some []
  | r :: rest =>
    match r.extract with
    | none => none
    | some o =>
      match extractAll rest with
      | none => none
      | some os => some (o :: os)

/-- One entry of `executed_trades_log`, mirroring the dict literals in the
source; keys that only some statuses carry are `Option`s. -/
structure TradeOutcome where
  timestamp : ℚ
  action : String
  symbol : String
  amount : ℚ
  limit_price : ℚ
  status : String
  filled_price : Option ℚ
  day_low_price : Option ℚ
  day_high_price : Option ℚ
  total_shares : Option ℚ
  sellable_shares : Option ℚ
  message : String
deriving DecidableEq

/-- Outcome dict for `"Failed-NoMarketData"`. -/
def noMarketDataOutcome (o : Order) : TradeOutcome :=
  ⟨o.timestamp, o.action, o.symbol, o.amount, o.limit_price,
   "Failed-NoMarketData", none, none, none, none, none,
   "No market data available for " ++ o.symbol⟩

/-- Outcome dict for `"Failed-NoPriceData"`. -/
def noPriceDataOutcome (o : Order) : TradeOutcome :=
  ⟨o.timestamp, o.action, o.symbol, o.amount, o.limit_price,
   "Failed-NoPriceData", none, none, none, none, none,
   "No price data available for " ++ o.symbol⟩

/-- Outcome dict for a filled buy. -/
def filledBuyOutcome (o : Order) : TradeOutcome :=
  ⟨o.timestamp, o.action, o.symbol, o.amount, o.limit_price,
   "Filled", some o.limit_price, none, none, none, none,
   "Buy order filled at " ++ toString o.limit_price⟩

/-- Outcome dict for `"Failed-Cash"`. -/
def failedCashOutcome (o : Order) (cost cash : ℚ) : TradeOutcome :=
  ⟨o.timestamp, o.action, o.symbol, o.amount, o.limit_price,
   "Failed-Cash", none, none, none, none, none,
   "Insufficient cash: need " ++ toString cost ++ ", have " ++ toString cash⟩

/-- Outcome dict for a buy whose limit price is below the day low. -/
def notFilledBuyOutcome (o : Order) (day_low : ℚ) : TradeOutcome :=
  ⟨o.timestamp, o.action, o.symbol, o.amount, o.limit_price,
   "OrderNotFilled-Price", none, some day_low, none, none, none,
   "Limit price " ++ toString o.limit_price ++ " below day low " ++ toString day_low⟩

/-- Outcome dict for a filled sell. -/
def filledSellOutcome (o : Order) : TradeOutcome :=
  ⟨o.timestamp, o.action, o.symbol, o.amount, o.limit_price,
   "Filled", some o.limit_price, none, none, none, none,
   "Sell order filled at " ++ toString o.limit_price⟩

/-- Outcome dict for `"Failed-Shares/T+1"`; `reason` is
`"T+1 restriction"` for the cn market and `"Insufficient shares"` otherwise. -/
def failedSharesOutcome (o : Order) (total_shares sellable : ℚ) (reason : String) :
    TradeOutcome :=
  ⟨o.timestamp, o.action, o.symbol, o.amount, o.limit_price,
   "Failed-Shares/T+1", none, none, none, some total_shares, some sellable,
   reason ++ ": have " ++ toString total_shares ++ ", sellable " ++
     toString sellable ++ ", want " ++ toString o.amount⟩

/-- Outcome dict for a sell whose limit price is above the day high. -/
def notFilledSellOutcome (o : Order) (day_high : ℚ) : TradeOutcome :=
  ⟨o.timestamp, o.action, o.symbol, o.amount, o.limit_price,
   "OrderNotFilled-Price", none, none, some day_high, none, none,
   "Limit price " ++ toString o.limit_price ++ " above day high " ++ toString day_high⟩

/-- The mutable state of the settlement loop: `settled_position`,
`shares_bought_today_cn`, and `executed_trades_log`. -/
structure LoopState where
  position : Dict
  boughtToday : Dict
  log : List TradeOutcome
deriving DecidableEq

/-- The sellable quantity the sell branch computes for an order in state `st`. -/
def sellableQty (st : LoopState) (o : Order) : ℚ :=
  if o.market = "cn" then
    st.position.get o.symbol 0 - st.boughtToday.get o.symbol 0
  else
    st.position.get o.symbol 0

/-- One iteration of the settlement loop (Step 7 of `run_daily_settlement`),
on an order whose six fields were all present.  `.error ()` models a Python
`KeyError` from `settled_position['CASH'] -= cost` or
`settled_position[symbol] -= amount` on an absent key. -/
def processOrder (md : MarketData) (st : LoopState) (o : Order) :
    Except Unit LoopState :=
  match md o.symbol with
  | none => .ok { st with log := st.log ++ [noMarketDataOutcome o] }
  | some none => .ok { st with log := st.log ++ [noMarketDataOutcome o] }
  | some (some entry) =>
    match entry.low, entry.high with
    | some day_low, some day_high =>
      if o.action = "buy" then
        if day_low ≤ o.limit_price then
          let cost := o.limit_price * o.amount
          if cost ≤ st.position.get "CASH" 0 then
            match st.position.find "CASH" with
            | none => .error ()
            | some c =>
              let pos1 := st.position.set "CASH" (c - cost)
              let pos2 := pos1.set o.symbol (pos1.get o.symbol 0 + o.amount)
              let bought :=
                if o.market = "cn" then
                  st.boughtToday.set o.symbol
                    (st.boughtToday.get o.symbol 0 + o.amount)
                else st.boughtToday
              .ok ⟨pos2, bought, st.log ++ [filledBuyOutcome o]⟩
          else
            .ok { st with log := st.log ++
              [failedCashOutcome o cost (st.position.get "CASH" 0)] }
        else
          .ok { st with log := st.log ++ [notFilledBuyOutcome o day_low] }
      else if o.action = "sell" then
        if o.limit_price ≤ day_high then
          let total_shares := st.position.get o.symbol 0
          let sellable :=
            if o.market = "cn" then
              total_shares - st.boughtToday.get o.symbol 0
            else total_shares
          if o.amount ≤ sellable then
            match st.position.find o.symbol with
            | none => .error ()
            | some hv =>
              let revenue := o.limit_price * o.amount
              let pos1 := st.position.set o.symbol (hv - o.amount)
              let pos2 := pos1.set "CASH" (pos1.get "CASH" 0 + revenue)
              .ok ⟨pos2, st.boughtToday, st.log ++ [filledSellOutcome o]⟩
          else
            let reason :=
              if o.market = "cn" then "T+1 restriction" else "Insufficient shares"
            .ok { st with log := st.log ++
              [failedSharesOutcome o total_shares sellable reason] }
        else
          .ok { st with log := st.log ++ [notFilledSellOutcome o day_high] }
      else
        -- an action that is neither 'buy' nor 'sell' falls through both
        -- branches: no outcome is recorded and the state is unchanged
        .ok st
    | _, _ =>
      .ok { st with log := st.log ++ [noPriceDataOutcome o] }

/-- The settlement loop over a list of orders, in order. -/
def settleLoop (md : MarketData) : List Order → LoopState → Except Unit LoopState
  | [], st => .ok st
  | o :: rest, st =>
    match processOrder md st o with
    | .error e => .error e
    | .ok st' => settleLoop md rest st'

/-- `sorted(pending_orders, key=lambda x: x['timestamp'])` — Python's sort is
stable and ascending by the key; a missing `'timestamp'` key raises, which the
caller checks for first. -/
def sortRawOrders (l : List RawOrder) : List RawOrder :=
  l.mergeSort (fun a b => decide (a.timestamp?.getD 0 ≤ b.timestamp?.getD 0))

/-- The same stable sort on fully-read orders. -/
def sortOrders (l : List Order) : List Order :=
  l.mergeSort (fun a b => decide (a.timestamp ≤ b.timestamp))

/-- The `this_action` object of a ledger line. -/
structure ActionEntry where
  action : String
  trades : List TradeOutcome
deriving DecidableEq

/-- One parsed line of `position.jsonl` (the `log_entry` dict written by
`_save_position_record`). -/
structure PositionRecord where
  date : String
  id : ℤ
  this_action : ActionEntry
  positions : Dict
deriving DecidableEq

/-- Everything `run_daily_settlement` reads from its environment.
`ledgerRead` is the attempt to open and scan `position.jsonl`
(`Except.error` models the whole `try` block raising, which the source
swallows with `pass`); a `none` line failed JSON parsing and is skipped.
`pendingRead` is the attempt to read the day's pending-orders file, with the
same conventions.  `oracle` is `get_high_low_prices` for the given date,
as a function of the `market` argument and the symbol.  `appendOk` is
whether the final file append succeeds (the source catches and only prints
an append exception). -/
structure SettleEnv where
  today_date : String
  startPosition : Dict
  lastActionId : ℤ
  ledgerRead : Except Unit (List (Option PositionRecord))
  pendingExists : Bool
  pendingRead : Except Unit (List (Option RawOrder))
  oracle : String → MarketData
  appendOk : Bool

/-- How one invocation of `run_daily_settlement` ends.
`skipped`: the idempotency check returned early, nothing appended.
`readError`: reading the pending-orders file raised; the source prints the
error and returns normally, appending nothing.
`saved r`: exactly the record `r` was appended and the call returned.
`saveFailed r`: the record `r` was computed but the append raised; the
source catches it and returns normally, so nothing was appended.
`crashed`: an uncaught exception (a `KeyError`) propagated out; nothing
was appended. -/
inductive RunResult where
  | skipped
  | readError
  | saved (r : PositionRecord)
  | saveFailed (r : PositionRecord)
  | crashed
deriving DecidableEq

/-- The idempotency scan (Step 2.5): does any parsed ledger line have
today's date and settlement action `"daily_settlement"`? -/
def alreadySettled (today_date : String) (lines : List (Option PositionRecord)) :
    Bool :=
  lines.any fun l =>
    match l with
    | some record =>
        record.date == today_date && record.this_action.action == "daily_settlement"
    | none => false

/-- `_save_position_record`: build the `log_entry` and append it; an append
exception is caught and only printed, so the call returns normally either way. -/
def save_position_record (env : SettleEnv) (trades : List TradeOutcome)
    (positions : Dict) : RunResult :=
  let log_entry : PositionRecord :=
    ⟨env.today_date, env.lastActionId + 1, ⟨"daily_settlement", trades⟩, positions⟩
  if env.appendOk then .saved log_entry else .saveFailed log_entry

/-- `run_daily_settlement`, as a function of its environment.

Beyond the loop, the source reads order fields in a few places before the
loop body: the sort key reads every order's `'timestamp'`, the symbol-set
comprehension reads every `'symbol'`, and the batch market reads the first
order's `'market'`; the loop body then reads all six fields of each order.
Any missing field therefore raises an uncaught `KeyError` before anything
is appended, which this model folds into the single check
`(sorted).mapM RawOrder.extract = none → crashed`. -/
def run_daily_settlement (env : SettleEnv) : RunResult :=
  -- Step 2.5: idempotency check (a failure to read the ledger is swallowed)
  let hit :=
    match env.ledgerRead with
    | .ok lines => alreadySettled env.today_date lines
    | .error _ => false
  if hit then .skipped
  else if !env.pendingExists then
    -- no pending-orders file: save the starting position unchanged
    save_position_record env [] env.startPosition
  else
    match env.pendingRead with
    | .error _ => .readError
    | .ok rawLines =>
      -- lines that fail JSON parsing are skipped
      let pending_orders := rawLines.filterMap id
      if pending_orders.isEmpty then
        save_position_record env [] env.startPosition
      else if pending_orders.any (fun r => r.timestamp?.isNone) then
        .crashed  -- KeyError inside the sort key
      else
        let sorted_orders := sortRawOrders pending_orders
        match extractAll sorted_orders with
        | none => .crashed  -- KeyError reading an order field
        | some orders =>
          let market :=
            match orders.head? with
            | some o => o.market
            | none => "us"
          let market_data := env.oracle market
          match settleLoop market_data orders ⟨env.startPosition, [], []⟩ with
          | .error _ => .crashed  -- KeyError inside the loop body
          | .ok st => save_position_record env st.log st.position

/-- Result of `place_limit_buy_order` / `place_limit_sell_order`:
either an error dict (no order appended), or exactly one order record
appended to the pending-orders file plus a status string in the returned
dict. -/
inductive PlaceResult where
  | error (msg : String)
  | placed (status : String) (order : Order)
deriving DecidableEq

/-- The market auto-detected from the symbol suffix in both intake tools. -/
def marketOf (symbol : String) : String :=
  if symbol.endsWith ".SH" || symbol.endsWith ".SZ" then "cn" else "us"

/-- `place_limit_buy_order` (tool_trade_limit.py).  Inputs are typed as the
source annotates them (`amount : int`, `limit_price : float`), so the
`int()` / `float()` conversions are identities; `ts` is the generated
`time.time()` order timestamp, passed in explicitly.  `writeError` is the
exception raised by the Step-4 append to the pending-orders file, if any:
the source wraps that write in `try/except` and returns
`{"error": f"Failed to record order: {e}", ...}` with no order appended.
The Step-5 `IF_TRADE` flag write swallows its own failures and does not
affect the returned dict, so it is not modelled. -/
def place_limit_buy_order (symbol : String) (amount : ℤ) (limit_price : ℚ)
    (ts : ℚ) (writeError : Option String) : PlaceResult :=
  let market := if symbol.endsWith ".SH" || symbol.endsWith ".SZ" then "cn" else "us"
  if amount ≤ 0 then
    .error ("Amount must be positive. You tried to buy " ++ toString amount ++ " shares.")
  else if limit_price ≤ 0 then
    .error ("Limit price must be positive. You tried to set limit price " ++
      toString limit_price ++ ".")
  else if market = "cn" ∧ amount % 100 ≠ 0 then
    .error ("Chinese A-shares must be traded in multiples of 100 shares (1 lot = 100 shares). You tried to buy " ++
      toString amount ++ " shares.")
  else
    match writeError with
    | some e => .error ("Failed to record order: " ++ e)
    | none =>
      .placed "OrderPlaced" ⟨ts, "buy", symbol, (amount : ℚ), limit_price, market⟩

/-- `place_limit_sell_order` (tool_trade_limit.py), same shape with the
sell action, including the same `try/except` around the pending-file
append. -/
def place_limit_sell_order (symbol : String) (amount : ℤ) (limit_price : ℚ)
    (ts : ℚ) (writeError : Option String) : PlaceResult :=
  let market := if symbol.endsWith ".SH" || symbol.endsWith ".SZ" then "cn" else "us"
  if amount ≤ 0 then
    .error ("Amount must be positive. You tried to sell " ++ toString amount ++ " shares.")
  else if limit_price ≤ 0 then
    .error ("Limit price must be positive. You tried to set limit price " ++
      toString limit_price ++ ".")
  else if market = "cn" ∧ amount % 100 ≠ 0 then
    .error ("Chinese A-shares must be traded in multiples of 100 shares (1 lot = 100 shares). You tried to sell " ++
      toString amount ++ " shares.")
  else
    match writeError with
    | some e => .error ("Failed to record order: " ++ e)
    | none =>
      .placed "OrderPlaced" ⟨ts, "sell", symbol, (amount : ℚ), limit_price, market⟩

/-- The order record a call appended, when one was appended. -/
def placedOrder : PlaceResult → Option Order
  | .placed _ o => some o
  | .error _ => none

/-! ## Dictionary lemmas -/

theorem Dict.get_eq_find_getD (d : Dict) (k : String) (dflt : ℚ) :
    d.get k dflt = (d.find k).getD dflt := by
  induction d with
  | nil => rfl
  | cons kv rest ih =>
    obtain ⟨k', v'⟩ := kv
    by_cases h : k' = k <;> simp [Dict.get, Dict.find, h, ih]

theorem Dict.get_set (d : Dict) (k : String) (v : ℚ) (k' : String) (dflt : ℚ) :
    (d.set k v).get k' dflt = if k = k' then v else d.get k' dflt := by
  induction d with
  | nil =>
    by_cases h : k = k' <;> simp [Dict.set, Dict.get, h]
  | cons kv rest ih =>
    obtain ⟨k₀, v₀⟩ := kv
    by_cases h0 : k₀ = k
    · subst h0
      by_cases h : k₀ = k' <;> simp [Dict.set, Dict.get, h]
    · by_cases h : k₀ = k'
      · subst h
        have : ¬ k = k₀ := fun hh => h0 hh.symm
        simp [Dict.set, Dict.get, h0, this]
      · simp [Dict.set, Dict.get, h0, h, ih]

theorem Dict.find_of_get_ne (d : Dict) (k : String) (h : d.get k 0 ≠ 0) :
    d.find k = some (d.get k 0) := by
  rw [Dict.get_eq_find_getD] at h ⊢
  cases hf : d.find k with
  | none => rw [hf] at h; simp at h
  | some v => rfl

theorem Dict.nonneg_set {d : Dict} {v : ℚ} (hd : d.Nonneg) (hv : 0 ≤ v)
    (k : String) : (d.set k v).Nonneg := by
  intro k'
  rw [Dict.get_set]
  by_cases h : k = k' <;> simp [h, hv, hd k']

theorem Dict.nonneg_of_forall {d : Dict} (h : ∀ kv ∈ d, 0 ≤ kv.2) : d.Nonneg := by
  intro k
  induction d with
  | nil => simp [Dict.get]
  | cons kv rest ih =>
    obtain ⟨k', v'⟩ := kv
    by_cases hk : k' = k
    · simpa [Dict.get, hk] using h (k', v') (by simp)
    · simp only [Dict.get, hk, if_false]
      exact ih fun kv hkv => h kv (List.mem_cons_of_mem _ hkv)

/-! ## Per-order semantics: buy -/

/-- C3: Buy semantics.  For a buy intent with available high/low data and
valid intent fields (positive quantity and limit price, per the Intent data
model; the symbol is a stock, not the reserved `CASH` key): if
`day_low ≤ limit_price` and cash covers `limit_price * quantity` the order
fills — cash is debited by `quantity * limit_price`, holdings are credited
by `quantity`, the outcome is `Filled` at `filled_price = limit_price`, and
for a cn-market intent the symbol's bought-today counter grows by
`quantity` (otherwise it is untouched); if the price condition holds but
cash is insufficient the outcome is `Failed-Cash` with no state change; if
`limit_price < day_low` the outcome is `OrderNotFilled-Price` carrying
`day_low_price`, with no state change. -/
theorem buy_semantics (md : MarketData) (st : LoopState) (o : Order)
    (entry : PriceEntry) (day_low day_high : ℚ)
    (hmd : md o.symbol = some (some entry))
    (hlow : entry.low = some day_low) (hhigh : entry.high = some day_high)
    (hact : o.action = "buy")
    (hamt : 0 < o.amount) (hlp : 0 < o.limit_price)
    (hsym : o.symbol ≠ "CASH") :
    (day_low ≤ o.limit_price → o.limit_price * o.amount ≤ st.position.get "CASH" 0 →
      ∃ st', processOrder md st o = .ok st' ∧
        st'.position.get "CASH" 0
          = st.position.get "CASH" 0 - o.limit_price * o.amount ∧
        st'.position.get o.symbol 0 = st.position.get o.symbol 0 + o.amount ∧
        st'.log = st.log ++ [filledBuyOutcome o] ∧
        (filledBuyOutcome o).status = "Filled" ∧
        (filledBuyOutcome o).filled_price = some o.limit_price ∧
        (o.market = "cn" →
          st'.boughtToday.get o.symbol 0
            = st.boughtToday.get o.symbol 0 + o.amount) ∧
        (o.market ≠ "cn" → st'.boughtToday = st.boughtToday)) ∧
    (day_low ≤ o.limit_price → st.position.get "CASH" 0 < o.limit_price * o.amount →
      processOrder md st o = .ok ⟨st.position, st.boughtToday, st.log ++
        [failedCashOutcome o (o.limit_price * o.amount) (st.position.get "CASH" 0)]⟩ ∧
      (failedCashOutcome o (o.limit_price * o.amount)
        (st.position.get "CASH" 0)).status = "Failed-Cash") ∧
    (o.limit_price < day_low →
      processOrder md st o
        = .ok ⟨st.position, st.boughtToday, st.log ++ [notFilledBuyOutcome o day_low]⟩ ∧
      (notFilledBuyOutcome o day_low).status = "OrderNotFilled-Price" ∧
      (notFilledBuyOutcome o day_low).day_low_price = some day_low) := by
  refine ⟨?_, ?_, ?_⟩
  · intro hprice hcash
    have hcost : 0 < o.limit_price * o.amount := mul_pos hlp hamt
    have hne : st.position.get "CASH" 0 ≠ 0 := (lt_of_lt_of_le hcost hcash).ne'
    have hfind := Dict.find_of_get_ne st.position "CASH" hne
    refine ⟨⟨(st.position.set "CASH"
        (st.position.get "CASH" 0 - o.limit_price * o.amount)).set o.symbol
          ((st.position.set "CASH"
            (st.position.get "CASH" 0 - o.limit_price * o.amount)).get o.symbol 0
              + o.amount),
      if o.market = "cn" then
        st.boughtToday.set o.symbol (st.boughtToday.get o.symbol 0 + o.amount)
      else st.boughtToday,
      st.log ++ [filledBuyOutcome o]⟩, ?_, ?_, ?_, rfl, rfl, rfl, ?_, ?_⟩
    · simp only [processOrder, hmd, hlow, hhigh, hact, hfind]
      simp [hprice, hcash]
    · simp [Dict.get_set, hsym]
    · have : "CASH" ≠ o.symbol := fun h => hsym h.symm
      simp [Dict.get_set, this]
    · intro hm
      simp [hm, Dict.get_set]
    · intro hm
      simp [hm]
  · intro hprice hlt
    refine ⟨?_, rfl⟩
    simp only [processOrder, hmd, hlow, hhigh, hact]
    simp [hprice, not_le.mpr hlt]
  · intro hlt
    refine ⟨?_, rfl, rfl⟩
    simp only [processOrder, hmd, hlow, hhigh, hact]
    simp [not_le.mpr hlt]

/-! ## Per-order semantics: sell -/

/-- C4: Sell semantics with the T+0/T+1 rule.  For a sell intent with
available high/low data and valid intent fields: the sellable quantity is
the full holdings for a non-cn intent and holdings minus the bought-today
counter for a cn intent; if `limit_price ≤ day_high` and the sellable
quantity covers the requested quantity, cash grows by
`limit_price * quantity` and holdings shrink by `quantity`, with outcome
`Filled` at `filled_price = limit_price`; if the price condition holds but
the sellable quantity is short, the outcome is `Failed-Shares/T+1`
recording `total_shares` and `sellable_shares`, with message reason
`"T+1 restriction"` for cn and `"Insufficient shares"` otherwise, and no
state change — so a cn sell of shares bought the same day fails even with
sufficient total holdings; if `day_high < limit_price` the outcome is
`OrderNotFilled-Price` carrying `day_high_price`, with no state change. -/
theorem sell_semantics (md : MarketData) (st : LoopState) (o : Order)
    (entry : PriceEntry) (day_low day_high : ℚ)
    (hmd : md o.symbol = some (some entry))
    (hlow : entry.low = some day_low) (hhigh : entry.high = some day_high)
    (hact : o.action = "sell")
    (hamt : 0 < o.amount) (hlp : 0 < o.limit_price)
    (hsym : o.symbol ≠ "CASH")
    (hbt : 0 ≤ st.boughtToday.get o.symbol 0) :
    (sellableQty st o = (if o.market = "cn" then
        st.position.get o.symbol 0 - st.boughtToday.get o.symbol 0
      else st.position.get o.symbol 0)) ∧
    (o.limit_price ≤ day_high → o.amount ≤ sellableQty st o →
      ∃ st', processOrder md st o = .ok st' ∧
        st'.position.get "CASH" 0
          = st.position.get "CASH" 0 + o.limit_price * o.amount ∧
        st'.position.get o.symbol 0 = st.position.get o.symbol 0 - o.amount ∧
        st'.boughtToday = st.boughtToday ∧
        st'.log = st.log ++ [filledSellOutcome o] ∧
        (filledSellOutcome o).status = "Filled" ∧
        (filledSellOutcome o).filled_price = some o.limit_price) ∧
    (o.limit_price ≤ day_high → sellableQty st o < o.amount →
      processOrder md st o = .ok ⟨st.position, st.boughtToday, st.log ++
        [failedSharesOutcome o (st.position.get o.symbol 0) (sellableQty st o)
          (if o.market = "cn" then "T+1 restriction" else "Insufficient shares")]⟩ ∧
      (failedSharesOutcome o (st.position.get o.symbol 0) (sellableQty st o)
        (if o.market = "cn" then "T+1 restriction" else "Insufficient shares")).status
          = "Failed-Shares/T+1" ∧
      (failedSharesOutcome o (st.position.get o.symbol 0) (sellableQty st o)
        (if o.market = "cn" then "T+1 restriction" else "Insufficient shares")).total_shares
          = some (st.position.get o.symbol 0) ∧
      (failedSharesOutcome o (st.position.get o.symbol 0) (sellableQty st o)
        (if o.market = "cn" then "T+1 restriction" else "Insufficient shares")).sellable_shares
          = some (sellableQty st o) ∧
      ∃ rest, (failedSharesOutcome o (st.position.get o.symbol 0) (sellableQty st o)
        (if o.market = "cn" then "T+1 restriction" else "Insufficient shares")).message
          = (if o.market = "cn" then "T+1 restriction" else "Insufficient shares") ++ rest) ∧
    (day_high < o.limit_price →
      processOrder md st o
        = .ok ⟨st.position, st.boughtToday, st.log ++ [notFilledSellOutcome o day_high]⟩ ∧
      (notFilledSellOutcome o day_high).status = "OrderNotFilled-Price" ∧
      (notFilledSellOutcome o day_high).day_high_price = some day_high) := by
  refine ⟨rfl, ?_, ?_, ?_⟩
  · intro hprice hsell
    have hget : 0 < st.position.get o.symbol 0 := by
      by_cases hm : o.market = "cn"
      · simp only [sellableQty, hm, if_pos] at hsell
        linarith
      · simp only [sellableQty, hm, if_neg, ite_false] at hsell
        linarith
    have hfind := Dict.find_of_get_ne st.position o.symbol hget.ne'
    have hcashsym : "CASH" ≠ o.symbol := fun h => hsym h.symm
    refine ⟨⟨((st.position.set o.symbol (st.position.get o.symbol 0 - o.amount)).set
        "CASH" ((st.position.set o.symbol
          (st.position.get o.symbol 0 - o.amount)).get "CASH" 0
            + o.limit_price * o.amount)),
      st.boughtToday, st.log ++ [filledSellOutcome o]⟩, ?_, ?_, ?_, rfl, rfl, rfl, rfl⟩
    · simp only [processOrder, hmd, hlow, hhigh, hact]
      have : ¬ o.action = "buy" := by simp [hact]
      simp only [this, if_false, if_pos hprice]
      rw [sellableQty] at hsell
      simp [hsell, hfind]
    · simp [Dict.get_set, hcashsym, hsym]
    · simp [Dict.get_set, hsym, hcashsym]
  · intro hprice hshort
    have hshort' := hshort
    rw [sellableQty] at hshort'
    refine ⟨?_, rfl, rfl, rfl, ?_⟩
    · simp only [sellableQty]
      simp only [processOrder, hmd, hlow, hhigh, hact]
      have : ¬ o.action = "buy" := by simp [hact]
      simp only [this, if_false, if_pos hprice]
      simp [not_le.mpr hshort']
    · exact ⟨": have " ++ toString (st.position.get o.symbol 0) ++ ", sellable " ++
        toString (sellableQty st o) ++ ", want " ++ toString o.amount, by
          simp [failedSharesOutcome, String.append_assoc]⟩
  · intro hlt
    refine ⟨?_, rfl, rfl⟩
    simp only [processOrder, hmd, hlow, hhigh, hact]
    have : ¬ o.action = "buy" := by simp [hact]
    simp [this, not_le.mpr hlt]

/-! ## Step lemma: one loop iteration on a valid intent succeeds and
preserves non-negativity -/

theorem processOrder_step (md : MarketData) (st : LoopState) (o : Order)
    (hamt : 0 < o.amount) (hlp : 0 < o.limit_price)
    (hpos : st.position.Nonneg) (hbt : st.boughtToday.Nonneg) :
    ∃ st', processOrder md st o = .ok st' ∧
      st'.position.Nonneg ∧ st'.boughtToday.Nonneg ∧
      (o.action = "buy" → st'.position.get "CASH" 0 < st.position.get "CASH" 0 →
        o.limit_price * o.amount ≤ st.position.get "CASH" 0) ∧
      (∀ s, s ≠ "CASH" → st'.position.get s 0 < st.position.get s 0 →
        o.action = "sell" ∧ o.amount ≤ sellableQty st o) := by
  cases hmd : md o.symbol with
  | none =>
    exact ⟨{ st with log := st.log ++ [noMarketDataOutcome o] },
      by simp [processOrder, hmd], hpos, hbt,
      fun _ hlt => absurd hlt (lt_irrefl _),
      fun s _ hlt => absurd hlt (lt_irrefl _)⟩
  | some x =>
    cases x with
    | none =>
      exact ⟨{ st with log := st.log ++ [noMarketDataOutcome o] },
        by simp [processOrder, hmd], hpos, hbt,
        fun _ hlt => absurd hlt (lt_irrefl _),
        fun s _ hlt => absurd hlt (lt_irrefl _)⟩
    | some entry =>
      cases hl : entry.low with
      | none =>
        exact ⟨{ st with log := st.log ++ [noPriceDataOutcome o] },
          by simp [processOrder, hmd, hl], hpos, hbt,
          fun _ hlt => absurd hlt (lt_irrefl _),
          fun s _ hlt => absurd hlt (lt_irrefl _)⟩
      | some day_low =>
        cases hh : entry.high with
        | none =>
          exact ⟨{ st with log := st.log ++ [noPriceDataOutcome o] },
            by simp [processOrder, hmd, hl, hh], hpos, hbt,
            fun _ hlt => absurd hlt (lt_irrefl _),
            fun s _ hlt => absurd hlt (lt_irrefl _)⟩
        | some day_high =>
          by_cases hb : o.action = "buy"
          · by_cases hprice : day_low ≤ o.limit_price
            · by_cases hcash : o.limit_price * o.amount ≤ st.position.get "CASH" 0
              · -- buy filled
                have hcost : 0 < o.limit_price * o.amount := mul_pos hlp hamt
                have hne : st.position.get "CASH" 0 ≠ 0 :=
                  (lt_of_lt_of_le hcost hcash).ne'
                have hfind := Dict.find_of_get_ne st.position "CASH" hne
                have hpos1 : (st.position.set "CASH"
                    (st.position.get "CASH" 0 - o.limit_price * o.amount)).Nonneg :=
                  Dict.nonneg_set hpos (by linarith) _
                refine ⟨⟨(st.position.set "CASH"
                    (st.position.get "CASH" 0 - o.limit_price * o.amount)).set o.symbol
                      ((st.position.set "CASH"
                        (st.position.get "CASH" 0 - o.limit_price * o.amount)).get
                          o.symbol 0 + o.amount),
                  if o.market = "cn" then
                    st.boughtToday.set o.symbol
                      (st.boughtToday.get o.symbol 0 + o.amount)
                  else st.boughtToday,
                  st.log ++ [filledBuyOutcome o]⟩, ?_, ?_, ?_, ?_, ?_⟩
                · simp only [processOrder, hmd, hl, hh, hb, hfind]
                  simp [hprice, hcash]
                · exact Dict.nonneg_set hpos1 (by
                    have := hpos1 o.symbol; linarith) _
                · by_cases hm : o.market = "cn"
                  · simp only [hm, if_pos]
                    exact Dict.nonneg_set hbt (by have := hbt o.symbol; linarith) _
                  · simpa [hm] using hbt
                · exact fun _ _ => hcash
                · intro s hs hlt
                  have hcs : ("CASH" : String) ≠ s := fun h => hs h.symm
                  by_cases hso : o.symbol = s
                  · subst hso
                    simp only [Dict.get_set, if_pos, hcs, if_neg, if_false,
                      ite_true, ite_false, if_true] at hlt
                    simp at hlt
                    linarith
                  · simp only [Dict.get_set, hso, hcs, if_false, ite_false] at hlt
                    exact absurd hlt (lt_irrefl _)
              · -- buy, insufficient cash
                refine ⟨⟨st.position, st.boughtToday, st.log ++
                    [failedCashOutcome o (o.limit_price * o.amount)
                      (st.position.get "CASH" 0)]⟩, ?_, hpos, hbt,
                  fun _ hlt => absurd hlt (lt_irrefl _),
                  fun s _ hlt => absurd hlt (lt_irrefl _)⟩
                simp only [processOrder, hmd, hl, hh, hb]
                simp [hprice, hcash]
            · -- buy, price not reached
              refine ⟨⟨st.position, st.boughtToday,
                  st.log ++ [notFilledBuyOutcome o day_low]⟩, ?_, hpos, hbt,
                fun _ hlt => absurd hlt (lt_irrefl _),
                fun s _ hlt => absurd hlt (lt_irrefl _)⟩
              simp only [processOrder, hmd, hl, hh, hb]
              simp [hprice]
          · by_cases hsell : o.action = "sell"
            · by_cases hprice : o.limit_price ≤ day_high
              · by_cases hqty : o.amount ≤ sellableQty st o
                · -- sell filled
                  have hget : 0 < st.position.get o.symbol 0 := by
                    by_cases hm : o.market = "cn"
                    · have := hbt o.symbol
                      simp only [sellableQty, hm, if_pos] at hqty
                      linarith
                    · simp only [sellableQty, hm, ite_false] at hqty
                      linarith
                  have hfind := Dict.find_of_get_ne st.position o.symbol hget.ne'
                  have hqty' := hqty
                  rw [sellableQty] at hqty'
                  have hpos1 : (st.position.set o.symbol
                      (st.position.get o.symbol 0 - o.amount)).Nonneg := by
                    refine Dict.nonneg_set hpos ?_ _
                    by_cases hm : o.market = "cn"
                    · have := hbt o.symbol
                      rw [if_pos hm] at hqty'
                      linarith
                    · rw [if_neg hm] at hqty'
                      linarith
                  refine ⟨⟨(st.position.set o.symbol
                      (st.position.get o.symbol 0 - o.amount)).set "CASH"
                        ((st.position.set o.symbol
                          (st.position.get o.symbol 0 - o.amount)).get "CASH" 0
                            + o.limit_price * o.amount),
                    st.boughtToday, st.log ++ [filledSellOutcome o]⟩,
                    ?_, ?_, hbt, ?_, ?_⟩
                  · simp only [processOrder, hmd, hl, hh, hb, hsell, hfind]
                    simp [hb, hprice, hqty']
                  · refine Dict.nonneg_set hpos1 ?_ _
                    have hrev : 0 < o.limit_price * o.amount := mul_pos hlp hamt
                    have h0 := hpos1 "CASH"
                    linarith
                  · intro hbuy _
                    exact absurd hbuy hb
                  · intro s hs hlt
                    exact ⟨hsell, hqty⟩
                · -- sell, insufficient sellable shares
                  have hqty' := hqty
                  rw [sellableQty] at hqty'
                  refine ⟨⟨st.position, st.boughtToday, st.log ++
                      [failedSharesOutcome o (st.position.get o.symbol 0)
                        (if o.market = "cn" then
                          st.position.get o.symbol 0 - st.boughtToday.get o.symbol 0
                        else st.position.get o.symbol 0)
                        (if o.market = "cn" then "T+1 restriction"
                        else "Insufficient shares")]⟩, ?_, hpos, hbt,
                    fun _ hlt => absurd hlt (lt_irrefl _),
                    fun s _ hlt => absurd hlt (lt_irrefl _)⟩
                  simp only [processOrder, hmd, hl, hh]
                  simp [hb, hsell, hprice, hqty']
              · -- sell, price not reached
                refine ⟨⟨st.position, st.boughtToday,
                    st.log ++ [notFilledSellOutcome o day_high]⟩, ?_, hpos, hbt,
                  fun _ hlt => absurd hlt (lt_irrefl _),
                  fun s _ hlt => absurd hlt (lt_irrefl _)⟩
                simp only [processOrder, hmd, hl, hh]
                simp [hb, hsell, hprice]
            · -- neither buy nor sell: no-op
              refine ⟨st, ?_, hpos, hbt,
                fun _ hlt => absurd hlt (lt_irrefl _),
                fun s _ hlt => absurd hlt (lt_irrefl _)⟩
              simp only [processOrder, hmd, hl, hh]
              simp [hb, hsell]

/-- Every prefix of a loop over valid intents settles successfully and keeps
both dictionaries non-negative. -/
theorem settleLoop_take_nonneg (md : MarketData) (orders : List Order)
    (hvalid : ∀ o ∈ orders, 0 < o.amount ∧ 0 < o.limit_price) :
    ∀ st : LoopState, st.position.Nonneg → st.boughtToday.Nonneg →
    ∀ n, ∃ st', settleLoop md (orders.take n) st = .ok st' ∧
      st'.position.Nonneg ∧ st'.boughtToday.Nonneg := by
  induction orders with
  | nil =>
    intro st h1 h2 n
    exact ⟨st, by simp [settleLoop], h1, h2⟩
  | cons o os ih =>
    intro st h1 h2 n
    cases n with
    | zero => exact ⟨st, rfl, h1, h2⟩
    | succ m =>
      have ho := hvalid o (by simp)
      obtain ⟨st1, heq, hp1, hb1, -, -⟩ := processOrder_step md st o ho.1 ho.2 h1 h2
      obtain ⟨st', heq', hp', hb'⟩ :=
        ih (fun o' ho' => hvalid o' (List.mem_cons_of_mem _ ho')) st1 hp1 hb1 m
      refine ⟨st', ?_, hp', hb'⟩
      simp only [List.take_succ_cons, settleLoop, heq]
      exact heq'

/-- If `extractAll` succeeds, every output order comes from some raw line. -/
theorem extractAll_mem :
    ∀ (l : List RawOrder) (ys : List Order), extractAll l = some ys →
      ∀ y ∈ ys, ∃ x ∈ l, x.extract = some y := by
  intro l
  induction l with
  | nil =>
    intro ys h y hy
    simp only [extractAll, Option.some.injEq] at h
    subst h
    simp at hy
  | cons x xs ih =>
    intro ys h y hy
    simp only [extractAll] at h
    cases hf : x.extract with
    | none => rw [hf] at h; simp at h
    | some b =>
      rw [hf] at h
      cases hrest : extractAll xs with
      | none => rw [hrest] at h; simp at h
      | some bs =>
        rw [hrest] at h
        simp only [Option.some.injEq] at h
        subst h
        rcases List.mem_cons.mp hy with hyb | hybs
        · exact ⟨x, by simp, hyb ▸ hf⟩
        · obtain ⟨x', hx', hfx'⟩ := ih bs hrest y hybs
          exact ⟨x', List.mem_cons_of_mem _ hx', hfx'⟩

/-- C2: Non-negativity invariant.  Intents are valid per the data model
(positive quantity and positive limit price).  First conjunct: starting a
loop from a position with `cash ≥ 0` and every holding `≥ 0` (i.e. every
key of the position dict reads non-negative), every prefix of the intent
list settles without error and leaves every key of the working position —
cash and all holdings — non-negative.  Second conjunct: a buy debits cash
only when cash covers `limit_price * quantity`.  Third conjunct: holdings
of a symbol decrease only through a sell whose sellable quantity covers
the requested quantity.  Fourth conjunct: the positions recorded in any
snapshot appended by `run_daily_settlement` are non-negative whenever the
starting position is and all parsed pending intents are valid. -/
theorem settlement_nonneg :
    (∀ (md : MarketData) (orders : List Order) (pos0 : Dict),
      (∀ o ∈ orders, 0 < o.amount ∧ 0 < o.limit_price) → pos0.Nonneg →
      ∀ n, ∃ st', settleLoop md (orders.take n) ⟨pos0, [], []⟩ = .ok st' ∧
        st'.position.Nonneg) ∧
    (∀ (md : MarketData) (st : LoopState) (o : Order) (st' : LoopState),
      0 < o.amount → 0 < o.limit_price →
      st.position.Nonneg → st.boughtToday.Nonneg →
      processOrder md st o = .ok st' →
      o.action = "buy" → st'.position.get "CASH" 0 < st.position.get "CASH" 0 →
      o.limit_price * o.amount ≤ st.position.get "CASH" 0) ∧
    (∀ (md : MarketData) (st : LoopState) (o : Order) (st' : LoopState),
      0 < o.amount → 0 < o.limit_price →
      st.position.Nonneg → st.boughtToday.Nonneg →
      processOrder md st o = .ok st' →
      ∀ s, s ≠ "CASH" → st'.position.get s 0 < st.position.get s 0 →
      o.action = "sell" ∧ o.amount ≤ sellableQty st o) ∧
    (∀ (env : SettleEnv) (r : PositionRecord),
      env.startPosition.Nonneg →
      (∀ rawLines, env.pendingRead = .ok rawLines →
        ∀ raw ∈ rawLines.filterMap id, ∀ o : Order, raw.extract = some o →
          0 < o.amount ∧ 0 < o.limit_price) →
      run_daily_settlement env = .saved r → r.positions.Nonneg) := by
  have hnil : Dict.Nonneg [] := by intro k; simp [Dict.get]
  refine ⟨?_, ?_, ?_, ?_⟩
  · intro md orders pos0 hvalid hpos n
    obtain ⟨st', heq, hp, -⟩ :=
      settleLoop_take_nonneg md orders hvalid ⟨pos0, [], []⟩ hpos hnil n
    exact ⟨st', heq, hp⟩
  · intro md st o st' hamt hlp hpos hbt heq hbuy hlt
    obtain ⟨st'', heq'', -, -, hdeb, -⟩ := processOrder_step md st o hamt hlp hpos hbt
    rw [heq] at heq''
    cases heq''
    exact hdeb hbuy hlt
  · intro md st o st' hamt hlp hpos hbt heq s hs hlt
    obtain ⟨st'', heq'', -, -, -, hdeb⟩ := processOrder_step md st o hamt hlp hpos hbt
    rw [heq] at heq''
    cases heq''
    exact hdeb s hs hlt
  · intro env r hpos hvalid hrun
    unfold run_daily_settlement at hrun
    by_cases hhit : (match env.ledgerRead with
      | .ok lines => alreadySettled env.today_date lines
      | .error _ => false) = true
    · rw [if_pos hhit] at hrun
      exact absurd hrun (by simp)
    · rw [if_neg hhit] at hrun
      by_cases hex : env.pendingExists
      · rw [if_neg (by simp [hex])] at hrun
        cases hread : env.pendingRead with
        | error e => rw [hread] at hrun; exact absurd hrun (by simp)
        | ok rawLines =>
          rw [hread] at hrun
          simp only at hrun
          by_cases hemp : (rawLines.filterMap id).isEmpty
          · rw [if_pos hemp] at hrun
            unfold save_position_record at hrun
            by_cases hap : env.appendOk
            · rw [if_pos hap] at hrun
              cases hrun
              exact hpos
            · rw [if_neg hap] at hrun
              exact absurd hrun (by simp)
          · rw [if_neg hemp] at hrun
            by_cases hts : (rawLines.filterMap id).any (fun rw => rw.timestamp?.isNone)
            · rw [if_pos hts] at hrun
              exact absurd hrun (by simp)
            · rw [if_neg hts] at hrun
              cases hmap : extractAll (sortRawOrders (rawLines.filterMap id)) with
              | none => rw [hmap] at hrun; exact absurd hrun (by simp)
              | some orders =>
                rw [hmap] at hrun
                simp only at hrun
                have hval : ∀ o ∈ orders, 0 < o.amount ∧ 0 < o.limit_price := by
                  intro o ho
                  obtain ⟨raw, hraw, hext⟩ := extractAll_mem _ _ hmap o ho
                  have hraw' : raw ∈ rawLines.filterMap id := by
                    have := List.mem_mergeSort.mp hraw
                    exact this
                  exact hvalid rawLines hread raw hraw' o hext
                cases hloop : settleLoop
                    (env.oracle (match orders.head? with
                      | some o => o.market
                      | none => "us"))
                    orders ⟨env.startPosition, [], []⟩ with
                | error e => rw [hloop] at hrun; exact absurd hrun (by simp)
                | ok stFin =>
                  rw [hloop] at hrun
                  simp only at hrun
                  obtain ⟨st', heq', hp', -⟩ := settleLoop_take_nonneg _ orders hval
                    ⟨env.startPosition, [], []⟩ hpos hnil orders.length
                  rw [List.take_length] at heq'
                  rw [hloop] at heq'
                  cases heq'
                  unfold save_position_record at hrun
                  by_cases hap : env.appendOk
                  · rw [if_pos hap] at hrun
                    cases hrun
                    exact hp'
                  · rw [if_neg hap] at hrun
                    exact absurd hrun (by simp)
      · rw [if_pos (by simp [hex])] at hrun
        unfold save_position_record at hrun
        by_cases hap : env.appendOk
        · rw [if_pos hap] at hrun
          cases hrun
          exact hpos
        · rw [if_neg hap] at hrun
          exact absurd hrun (by simp)

/-- Every successful loop iteration is a no-op on the dictionaries, a buy
fill, or a sell fill, with the exact updates the source performs. -/
theorem processOrder_cases (md : MarketData) (st : LoopState) (o : Order)
    (st' : LoopState) (h : processOrder md st o = .ok st') :
    (st'.position = st.position ∧ st'.boughtToday = st.boughtToday) ∨
    (o.action = "buy" ∧ o.limit_price * o.amount ≤ st.position.get "CASH" 0 ∧
      st'.position = (st.position.set "CASH"
        (st.position.get "CASH" 0 - o.limit_price * o.amount)).set o.symbol
          ((st.position.set "CASH"
            (st.position.get "CASH" 0 - o.limit_price * o.amount)).get o.symbol 0
              + o.amount) ∧
      st'.boughtToday = (if o.market = "cn" then
        st.boughtToday.set o.symbol (st.boughtToday.get o.symbol 0 + o.amount)
      else st.boughtToday)) ∨
    (o.action = "sell" ∧ o.amount ≤ sellableQty st o ∧
      st'.position = (st.position.set o.symbol
        (st.position.get o.symbol 0 - o.amount)).set "CASH"
          ((st.position.set o.symbol
            (st.position.get o.symbol 0 - o.amount)).get "CASH" 0
              + o.limit_price * o.amount) ∧
      st'.boughtToday = st.boughtToday) := by
  revert h
  cases hmd : md o.symbol with
  | none =>
    intro h
    simp only [processOrder, hmd, Except.ok.injEq] at h
    subst h
    exact Or.inl ⟨rfl, rfl⟩
  | some x =>
    cases x with
    | none =>
      intro h
      simp only [processOrder, hmd, Except.ok.injEq] at h
      subst h
      exact Or.inl ⟨rfl, rfl⟩
    | some entry =>
      cases hl : entry.low with
      | none =>
        intro h
        simp only [processOrder, hmd, hl, Except.ok.injEq] at h
        subst h
        exact Or.inl ⟨rfl, rfl⟩
      | some day_low =>
        cases hh : entry.high with
        | none =>
          intro h
          simp only [processOrder, hmd, hl, hh, Except.ok.injEq] at h
          subst h
          exact Or.inl ⟨rfl, rfl⟩
        | some day_high =>
          by_cases hb : o.action = "buy"
          · by_cases hprice : day_low ≤ o.limit_price
            · by_cases hcash : o.limit_price * o.amount ≤ st.position.get "CASH" 0
              · cases hfind : st.position.find "CASH" with
                | none =>
                  intro h
                  simp only [processOrder, hmd, hl, hh, hb, hfind] at h
                  simp [hprice, hcash] at h
                | some c =>
                  have hc : c = st.position.get "CASH" 0 := by
                    rw [Dict.get_eq_find_getD, hfind]; rfl
                  intro h
                  simp only [processOrder, hmd, hl, hh, hb, hfind] at h
                  simp only [hprice, hcash, if_true, ite_true, if_pos,
                    Except.ok.injEq] at h
                  subst h
                  subst hc
                  exact Or.inr (Or.inl ⟨hb, hcash, rfl, rfl⟩)
              · intro h
                simp only [processOrder, hmd, hl, hh, hb] at h
                simp only [hprice, hcash, if_true, ite_true, if_false, ite_false,
                  if_pos, Except.ok.injEq] at h
                subst h
                exact Or.inl ⟨rfl, rfl⟩
            · intro h
              simp only [processOrder, hmd, hl, hh, hb] at h
              simp only [hprice, if_true, ite_true, if_false, ite_false,
                Except.ok.injEq] at h
              subst h
              exact Or.inl ⟨rfl, rfl⟩
          · by_cases hsell : o.action = "sell"
            · by_cases hprice : o.limit_price ≤ day_high
              · by_cases hqty : o.amount ≤ sellableQty st o
                · have hqty' := hqty
                  rw [sellableQty] at hqty'
                  cases hfind : st.position.find o.symbol with
                  | none =>
                    intro h
                    simp only [processOrder, hmd, hl, hh, hb, hsell, hfind] at h
                    simp [hprice, hqty'] at h
                  | some c =>
                    have hc : c = st.position.get o.symbol 0 := by
                      rw [Dict.get_eq_find_getD, hfind]; rfl
                    intro h
                    simp only [processOrder, hmd, hl, hh, hb, hsell, hfind] at h
                    simp [hprice, hqty'] at h
                    subst h
                    subst hc
                    exact Or.inr (Or.inr ⟨hsell, hqty, rfl, rfl⟩)
                · have hqty' := hqty
                  rw [sellableQty] at hqty'
                  intro h
                  simp only [processOrder, hmd, hl, hh, hb, hsell] at h
                  simp [hprice, hqty'] at h
                  subst h
                  exact Or.inl ⟨rfl, rfl⟩
              · intro h
                simp only [processOrder, hmd, hl, hh, hb, hsell] at h
                simp [hprice] at h
                subst h
                exact Or.inl ⟨rfl, rfl⟩
            · intro h
              simp only [processOrder, hmd, hl, hh] at h
              simp [hb, hsell] at h
              subst h
              exact Or.inl ⟨rfl, rfl⟩

/-- Invariant carried by the loop for the T+1 rule: given a set `cnSym` of
cn-market symbols that covers every cn intent and excludes every non-cn
intent's symbol and `"CASH"`, the bought-today counter never exceeds the
working holdings, and is zero outside `cnSym`. -/
theorem settleLoop_take_t1_inv (md : MarketData) (cnSym : String → Prop)
    (hcash : ¬ cnSym "CASH") (l : List Order)
    (hP : ∀ o ∈ l, 0 < o.amount ∧ 0 < o.limit_price ∧ o.symbol ≠ "CASH" ∧
      (o.market = "cn" → cnSym o.symbol) ∧ (o.market ≠ "cn" → ¬ cnSym o.symbol)) :
    ∀ st : LoopState, st.position.Nonneg → st.boughtToday.Nonneg →
      (∀ s, st.boughtToday.get s 0 ≤ st.position.get s 0) →
      (∀ s, ¬ cnSym s → st.boughtToday.get s 0 = 0) →
      ∀ n, ∃ st', settleLoop md (l.take n) st = .ok st' ∧
        st'.position.Nonneg ∧ st'.boughtToday.Nonneg ∧
        (∀ s, st'.boughtToday.get s 0 ≤ st'.position.get s 0) ∧
        (∀ s, ¬ cnSym s → st'.boughtToday.get s 0 = 0) := by
  induction l with
  | nil =>
    intro st h1 h2 h3 h4 n
    exact ⟨st, by simp [settleLoop], h1, h2, h3, h4⟩
  | cons o os ih =>
    intro st h1 h2 h3 h4 n
    cases n with
    | zero => exact ⟨st, rfl, h1, h2, h3, h4⟩
    | succ m =>
      obtain ⟨ho1, ho2, ho3, ho4, ho5⟩ := hP o (by simp)
      obtain ⟨st1, heq, hp1, hb1, -, -⟩ := processOrder_step md st o ho1 ho2 h1 h2
      have hstep3 : ∀ s, st1.boughtToday.get s 0 ≤ st1.position.get s 0 := by
        rcases processOrder_cases md st o st1 heq with
          ⟨hpe, hbe⟩ | ⟨hbuy, hcov, hpe, hbe⟩ | ⟨hsel, hcov, hpe, hbe⟩
        · intro s; rw [hpe, hbe]; exact h3 s
        · intro s
          rw [hpe, hbe]
          have hcs : ("CASH" : String) ≠ o.symbol := fun h => ho3 h.symm
          by_cases hm : o.market = "cn"
          · rw [if_pos hm]
            by_cases hs : o.symbol = s
            · subst hs
              simp [Dict.get_set, hcs]
              linarith [h3 o.symbol]
            · simp [Dict.get_set, hs]
              by_cases hc : ("CASH" : String) = s
              · subst hc
                simp
                linarith [h4 "CASH" hcash]
              · simp [hc]
                exact h3 s
          · rw [if_neg hm]
            by_cases hs : o.symbol = s
            · subst hs
              simp [Dict.get_set, hcs]
              linarith [h3 o.symbol]
            · simp [Dict.get_set, hs]
              by_cases hc : ("CASH" : String) = s
              · subst hc
                simp
                linarith [h4 "CASH" hcash]
              · simp [hc]
                exact h3 s
        · intro s
          rw [hpe, hbe]
          have hcs : ("CASH" : String) ≠ o.symbol := fun h => ho3 h.symm
          by_cases hc : ("CASH" : String) = s
          · subst hc
            simp [Dict.get_set, hcs, fun h : o.symbol = "CASH" => ho3 h]
            have hrev : 0 < o.limit_price * o.amount := mul_pos ho2 ho1
            linarith [h4 "CASH" hcash, h1 "CASH"]
          · by_cases hs : o.symbol = s
            · subst hs
              simp [Dict.get_set, hcs]
              rw [sellableQty] at hcov
              by_cases hm : o.market = "cn"
              · rw [if_pos hm] at hcov
                linarith [h2 o.symbol]
              · rw [if_neg hm] at hcov
                linarith [h4 o.symbol (ho5 hm)]
            · simp [Dict.get_set, hs, hc]
              exact h3 s
      have hstep4 : ∀ s, ¬ cnSym s → st1.boughtToday.get s 0 = 0 := by
        rcases processOrder_cases md st o st1 heq with
          ⟨hpe, hbe⟩ | ⟨hbuy, hcov, hpe, hbe⟩ | ⟨hsel, hcov, hpe, hbe⟩
        · intro s hns; rw [hbe]; exact h4 s hns
        · intro s hns
          rw [hbe]
          by_cases hm : o.market = "cn"
          · rw [if_pos hm]
            rw [Dict.get_set]
            by_cases hs : o.symbol = s
            · exact absurd (hs ▸ ho4 hm) hns
            · rw [if_neg hs]
              exact h4 s hns
          · rw [if_neg hm]
            exact h4 s hns
        · intro s hns; rw [hbe]; exact h4 s hns
      obtain ⟨st', heq', hp', hb', h3', h4'⟩ :=
        ih (fun o' ho' => hP o' (List.mem_cons_of_mem _ ho')) st1 hp1 hb1 hstep3 hstep4 m
      refine ⟨st', ?_, hp', hb', h3', h4'⟩
      simp only [List.take_succ_cons, settleLoop, heq]
      exact heq'

/-- C10: Implicit invariant enabling the T+1 rule.  Intents are valid per
the data model (positive quantity and price, stock symbols distinct from
the reserved `CASH` key) and symbols determine their market (two intents on
the same symbol carry the same market, as the `.SH`/`.SZ` suffix rule
guarantees).  Starting from non-negative holdings and a zero bought-today
counter, after any prefix of the sorted intents every symbol's bought-today
counter is at most the working holdings of that symbol, and therefore the
sellable quantity computed for any cn-market intent is non-negative. -/
theorem bought_today_le_holdings (md : MarketData) (orders : List Order)
    (pos0 : Dict)
    (hvalid : ∀ o ∈ orders, 0 < o.amount ∧ 0 < o.limit_price ∧ o.symbol ≠ "CASH")
    (hmkt : ∀ o1 ∈ orders, ∀ o2 ∈ orders, o1.symbol = o2.symbol →
      o1.market = o2.market)
    (hpos : pos0.Nonneg) :
    ∀ n, ∃ st', settleLoop md (orders.take n) ⟨pos0, [], []⟩ = .ok st' ∧
      (∀ s, st'.boughtToday.get s 0 ≤ st'.position.get s 0) ∧
      (∀ o : Order, o.market = "cn" → 0 ≤ sellableQty st' o) := by
  intro n
  have hnil : Dict.Nonneg [] := by intro k; simp [Dict.get]
  have hP : ∀ o ∈ orders, 0 < o.amount ∧ 0 < o.limit_price ∧ o.symbol ≠ "CASH" ∧
      (o.market = "cn" →
        (∃ o' ∈ orders, o'.symbol = o.symbol ∧ o'.market = "cn")) ∧
      (o.market ≠ "cn" →
        ¬ (∃ o' ∈ orders, o'.symbol = o.symbol ∧ o'.market = "cn")) := by
    intro o ho
    obtain ⟨h1, h2, h3⟩ := hvalid o ho
    refine ⟨h1, h2, h3, fun hm => ⟨o, ho, rfl, hm⟩, fun hm hex => ?_⟩
    obtain ⟨o', ho', hsym, hm'⟩ := hex
    exact hm ((hmkt o ho o' ho' hsym.symm).trans hm')
  have hc : ¬ (∃ o' ∈ orders, o'.symbol = "CASH" ∧ o'.market = "cn") := by
    rintro ⟨o', ho', hsym, -⟩
    exact (hvalid o' ho').2.2 hsym
  obtain ⟨st', heq, -, hb', h3', -⟩ :=
    settleLoop_take_t1_inv md
      (fun s => ∃ o' ∈ orders, o'.symbol = s ∧ o'.market = "cn") hc orders hP
      ⟨pos0, [], []⟩ hpos hnil (fun s => hpos s) (fun s _ => rfl) n
  refine ⟨st', heq, h3', ?_⟩
  intro o hm
  rw [sellableQty, if_pos hm]
  have := h3' o.symbol
  linarith

/-- The loop over a concatenation runs the first part, then the second from
the resulting state. -/
theorem settleLoop_append (md : MarketData) (l1 l2 : List Order) :
    ∀ st : LoopState, settleLoop md (l1 ++ l2) st =
      match settleLoop md l1 st with
      | .error e => .error e
      | .ok st1 => settleLoop md l2 st1 := by
  induction l1 with
  | nil => intro st; rfl
  | cons o os ih =>
    intro st
    simp only [List.cons_append, settleLoop]
    cases processOrder md st o with
    | error e => rfl
    | ok st' => exact ih st'

/-- A successfully-read order carries its line's timestamp. -/
theorem RawOrder.extract_timestamp (r : RawOrder) (o : Order)
    (h : r.extract = some o) : r.timestamp? = some o.timestamp := by
  obtain ⟨t?, a?, s?, q?, lp?, m?⟩ := r
  rw [RawOrder.extract] at h
  cases t? <;> cases a? <;> cases s? <;> cases q? <;> cases lp? <;>
    cases m? <;> simp_all
  rw [← h]

/-- Field extraction keeps the timestamp sequence. -/
theorem extractAll_timestamps :
    ∀ (l : List RawOrder) (ys : List Order), extractAll l = some ys →
      l.map (fun r => r.timestamp?.getD 0) = ys.map Order.timestamp := by
  intro l
  induction l with
  | nil =>
    intro ys h
    simp only [extractAll, Option.some.injEq] at h
    subst h
    rfl
  | cons x xs ih =>
    intro ys h
    simp only [extractAll] at h
    cases hf : x.extract with
    | none => rw [hf] at h; simp at h
    | some o =>
      rw [hf] at h
      cases hrest : extractAll xs with
      | none => rw [hrest] at h; simp at h
      | some os =>
        rw [hrest] at h
        simp only [Option.some.injEq] at h
        subst h
        have hts : x.timestamp?.getD 0 = o.timestamp := by
          rw [RawOrder.extract_timestamp x o hf]
          rfl
        simp only [List.map_cons, hts, ih os hrest]

/-- C6: Ordering is load-bearing.  The engine's sort is ascending by
timestamp (first conjunct), is a permutation of the submitted intents
(second conjunct) and is stable — any pair already in timestamp order, in
particular a tie, keeps its relative order (third conjunct); the list the
loop actually processes, obtained by sorting the raw pending lines and then
reading their fields, is ascending by timestamp (fourth conjunct); and
processing is sequential: when the sorted list splits as
`l1 ++ intent :: l2`, the intent is evaluated in exactly the state produced
by settling `l1`, so the effects of every earlier-timestamped intent are
visible to it (fifth conjunct). -/
theorem intent_ordering (l : List Order) (raws : List RawOrder)
    (orders : List Order) (md : MarketData) (st0 : LoopState) :
    List.Pairwise (fun a b : Order => a.timestamp ≤ b.timestamp) (sortOrders l) ∧
    List.Perm (sortOrders l) l ∧
    (∀ a b : Order, List.Sublist [a, b] l → a.timestamp ≤ b.timestamp →
      List.Sublist [a, b] (sortOrders l)) ∧
    (extractAll (sortRawOrders raws) = some orders →
      List.Pairwise (fun a b : Order => a.timestamp ≤ b.timestamp) orders) ∧
    (∀ (l1 : List Order) (o : Order) (l2 : List Order) (st1 : LoopState),
      sortOrders l = l1 ++ o :: l2 → settleLoop md l1 st0 = .ok st1 →
      settleLoop md (sortOrders l) st0 =
        match processOrder md st1 o with
        | .error e => .error e
        | .ok st2 => settleLoop md l2 st2) := by
  have htrans : ∀ a b c : Order,
      (fun a b : Order => decide (a.timestamp ≤ b.timestamp)) a b →
      (fun a b : Order => decide (a.timestamp ≤ b.timestamp)) b c →
      (fun a b : Order => decide (a.timestamp ≤ b.timestamp)) a c := by
    intro a b c h1 h2
    simp only [decide_eq_true_eq] at h1 h2 ⊢
    exact le_trans h1 h2
  have htotal : ∀ a b : Order,
      ((fun a b : Order => decide (a.timestamp ≤ b.timestamp)) a b ||
       (fun a b : Order => decide (a.timestamp ≤ b.timestamp)) b a) := by
    intro a b
    simp only [Bool.or_eq_true, decide_eq_true_eq]
    exact le_total _ _
  have hrtrans : ∀ a b c : RawOrder,
      (fun a b : RawOrder => decide (a.timestamp?.getD 0 ≤ b.timestamp?.getD 0)) a b →
      (fun a b : RawOrder => decide (a.timestamp?.getD 0 ≤ b.timestamp?.getD 0)) b c →
      (fun a b : RawOrder => decide (a.timestamp?.getD 0 ≤ b.timestamp?.getD 0)) a c := by
    intro a b c h1 h2
    simp only [decide_eq_true_eq] at h1 h2 ⊢
    exact le_trans h1 h2
  have hrtotal : ∀ a b : RawOrder,
      ((fun a b : RawOrder => decide (a.timestamp?.getD 0 ≤ b.timestamp?.getD 0)) a b ||
       (fun a b : RawOrder => decide (a.timestamp?.getD 0 ≤ b.timestamp?.getD 0)) b a) := by
    intro a b
    simp only [Bool.or_eq_true, decide_eq_true_eq]
    exact le_total _ _
  refine ⟨?_, ?_, ?_, ?_, ?_⟩
  · exact (List.sorted_mergeSort htrans htotal l).imp (by
      intro a b h
      exact decide_eq_true_eq.mp h)
  · exact List.mergeSort_perm l _
  · intro a b hsub hab
    exact List.pair_sublist_mergeSort htrans htotal (decide_eq_true hab) hsub
  · intro hext
    have hsorted := List.sorted_mergeSort hrtrans hrtotal raws
    have hmap := extractAll_timestamps _ _ hext
    have : List.Pairwise (fun x y : ℚ => x ≤ y)
        ((sortRawOrders raws).map (fun r => r.timestamp?.getD 0)) := by
      rw [List.pairwise_map]
      exact hsorted.imp (by intro a b h; exact decide_eq_true_eq.mp h)
    rw [hmap, List.pairwise_map] at this
    exact this
  · intro l1 o l2 st1 hsplit hst1
    rw [hsplit, settleLoop_append, hst1]
    rfl

/-- When the ledger scan finds a settlement record for today, the run
returns at Step 2.5 and appends nothing. -/
theorem run_skipped_of_settled (env : SettleEnv)
    (lines : List (Option PositionRecord)) (rec : PositionRecord)
    (hread : env.ledgerRead = .ok lines) (hmem : some rec ∈ lines)
    (hdate : rec.date = env.today_date)
    (hact : rec.this_action.action = "daily_settlement") :
    run_daily_settlement env = .skipped := by
  have hhit : alreadySettled env.today_date lines = true := by
    rw [alreadySettled, List.any_eq_true]
    exact ⟨some rec, hmem, by simp [hdate, hact]⟩
  unfold run_daily_settlement
  rw [hread]
  simp [hhit]

/-- Any appended snapshot has today's date, the settlement action, the next
sequence id, and was produced with a working append. -/
theorem run_saved_form (env : SettleEnv) (r : PositionRecord)
    (h : run_daily_settlement env = .saved r) :
    (∃ trades positions, r =
      ⟨env.today_date, env.lastActionId + 1, ⟨"daily_settlement", trades⟩,
        positions⟩) ∧ env.appendOk = true := by
  unfold run_daily_settlement at h
  by_cases hhit : (match env.ledgerRead with
    | .ok lines => alreadySettled env.today_date lines
    | .error _ => false) = true
  · rw [if_pos hhit] at h
    exact absurd h (by simp)
  · rw [if_neg hhit] at h
    by_cases hap : env.appendOk
    · refine ⟨?_, hap⟩
      by_cases hex : env.pendingExists
      · rw [if_neg (by simp [hex])] at h
        cases hread : env.pendingRead with
        | error e => rw [hread] at h; exact absurd h (by simp)
        | ok rawLines =>
          rw [hread] at h
          simp only at h
          by_cases hemp : (rawLines.filterMap id).isEmpty
          · rw [if_pos hemp] at h
            rw [save_position_record, if_pos hap] at h
            cases h
            exact ⟨[], env.startPosition, rfl⟩
          · rw [if_neg hemp] at h
            by_cases hts : (rawLines.filterMap id).any (fun rw => rw.timestamp?.isNone)
            · rw [if_pos hts] at h
              exact absurd h (by simp)
            · rw [if_neg hts] at h
              cases hmap : extractAll (sortRawOrders (rawLines.filterMap id)) with
              | none => rw [hmap] at h; exact absurd h (by simp)
              | some orders =>
                rw [hmap] at h
                simp only at h
                cases hloop : settleLoop
                    (env.oracle (match orders.head? with
                      | some o => o.market
                      | none => "us"))
                    orders ⟨env.startPosition, [], []⟩ with
                | error e => rw [hloop] at h; exact absurd h (by simp)
                | ok stFin =>
                  rw [hloop] at h
                  simp only at h
                  rw [save_position_record, if_pos hap] at h
                  cases h
                  exact ⟨stFin.log, stFin.position, rfl⟩
      · rw [if_pos (by simp [hex])] at h
        rw [save_position_record, if_pos hap] at h
        cases h
        exact ⟨[], env.startPosition, rfl⟩
    · exfalso
      by_cases hex : env.pendingExists
      · rw [if_neg (by simp [hex])] at h
        cases hread : env.pendingRead with
        | error e => rw [hread] at h; exact absurd h (by simp)
        | ok rawLines =>
          rw [hread] at h
          simp only at h
          by_cases hemp : (rawLines.filterMap id).isEmpty
          · rw [if_pos hemp] at h
            rw [save_position_record, if_neg hap] at h
            exact absurd h (by simp)
          · rw [if_neg hemp] at h
            by_cases hts : (rawLines.filterMap id).any (fun rw => rw.timestamp?.isNone)
            · rw [if_pos hts] at h
              exact absurd h (by simp)
            · rw [if_neg hts] at h
              cases hmap : extractAll (sortRawOrders (rawLines.filterMap id)) with
              | none => rw [hmap] at h; exact absurd h (by simp)
              | some orders =>
                rw [hmap] at h
                simp only at h
                cases hloop : settleLoop
                    (env.oracle (match orders.head? with
                      | some o => o.market
                      | none => "us"))
                    orders ⟨env.startPosition, [], []⟩ with
                | error e => rw [hloop] at h; exact absurd h (by simp)
                | ok stFin =>
                  rw [hloop] at h
                  simp only at h
                  rw [save_position_record, if_neg hap] at h
                  exact absurd h (by simp)
      · rw [if_pos (by simp [hex])] at h
        rw [save_position_record, if_neg hap] at h
        exact absurd h (by simp)

/-- C1: Idempotence of settlement.  If the readable Position Ledger already
holds a record whose date is the target date and whose settlement action is
`"daily_settlement"`, the run returns without appending anything (first
conjunct).  Every snapshot a run appends bears the target date and the
`"daily_settlement"` action (second conjunct), so a second invocation for
the same date, whose ledger now also contains the first run's appended
record, is a no-op — two invocations leave exactly one settlement snapshot
for the date (third conjunct). -/
theorem settlement_idempotent :
    (∀ (env : SettleEnv) (lines : List (Option PositionRecord))
      (rec : PositionRecord),
      env.ledgerRead = .ok lines → some rec ∈ lines →
      rec.date = env.today_date → rec.this_action.action = "daily_settlement" →
      run_daily_settlement env = .skipped) ∧
    (∀ (env : SettleEnv) (r : PositionRecord),
      run_daily_settlement env = .saved r →
      r.date = env.today_date ∧ r.this_action.action = "daily_settlement") ∧
    (∀ (env env2 : SettleEnv) (r : PositionRecord)
      (lines : List (Option PositionRecord)),
      run_daily_settlement env = .saved r →
      env2.today_date = env.today_date →
      env2.ledgerRead = .ok (lines ++ [some r]) →
      run_daily_settlement env2 = .skipped) := by
  refine ⟨?_, ?_, ?_⟩
  · exact fun env lines rec hread hmem hdate hact =>
      run_skipped_of_settled env lines rec hread hmem hdate hact
  · intro env r h
    obtain ⟨⟨trades, positions, hr⟩, -⟩ := run_saved_form env r h
    subst hr
    exact ⟨rfl, rfl⟩
  · intro env env2 r lines h1 hdate hread2
    obtain ⟨⟨trades, positions, hr⟩, -⟩ := run_saved_form env r h1
    refine run_skipped_of_settled env2 (lines ++ [some r]) r hread2
      (by simp) ?_ ?_
    · rw [hr, hdate]
    · rw [hr]

/-- If any line of the list has a missing field, reading all fields fails. -/
theorem extractAll_eq_none (l : List RawOrder) (x : RawOrder) (hx : x ∈ l)
    (hex : x.extract = none) : extractAll l = none := by
  induction l with
  | nil => simp at hx
  | cons y ys ih =>
    rcases List.mem_cons.mp hx with hxy | hxs
    · subst hxy
      simp only [extractAll, hex]
    · rw [extractAll]
      cases hey : y.extract with
      | none => rfl
      | some o => rw [ih hxs]

/-- The projection of a run result onto the statuses of the appended
snapshot's trade outcomes, when a snapshot was appended. -/
def savedTradeStatuses : RunResult → Option (List String)
  | .saved r => some (r.this_action.trades.map TradeOutcome.status)
  | _ => none

/-- An environment whose pending-orders file exists but cannot be read. -/
def envReadError : SettleEnv :=
  ⟨"2025-01-02", [("CASH", 1000)], 0, .ok [], true, .error (),
    fun _ => fun _ => none, true⟩

/-- An environment whose pending file holds one JSON-parseable order dict
with no `timestamp` key. -/
def envNoTimestamp : SettleEnv :=
  ⟨"2025-01-02", [("CASH", 1000)], 0, .ok [], true,
    .ok [some ⟨none, some "buy", some "AAPL", some 10, some 150, some "us"⟩],
    fun _ => fun _ => none, true⟩

/-- An environment whose pending file holds one well-formed cn-market buy
whose quantity 150 is not a multiple of 100. -/
def envOddLot : SettleEnv :=
  ⟨"2025-01-02", [("CASH", 10000)], 0, .ok [], true,
    .ok [some ⟨some 1, some "buy", some "600519.SH", some 150, some 10,
      some "cn"⟩],
    fun _ => fun s => if s = "600519.SH" then some (some ⟨some 5, some 20⟩)
      else none, true⟩

/-- C5 counterexample: with a pending-orders file that exists but fails to
read, the run returns `readError` — the source prints the exception and
returns normally — so the invocation neither appends a snapshot nor fails
with any raised error (there is no `SettlementError` in the source; the
only raising exit is the uncaught `KeyError`, modelled as `crashed`). -/
theorem settlement_contract_counterexample :
    run_daily_settlement envReadError = .readError ∧
    ¬ ((∃ r, run_daily_settlement envReadError = .saved r) ∨
        run_daily_settlement envReadError = .crashed) := by
  refine ⟨rfl, ?_⟩
  rintro (⟨r, hr⟩ | hc)
  · rw [show run_daily_settlement envReadError = .readError from rfl] at hr
    cases hr
  · rw [show run_daily_settlement envReadError = .readError from rfl] at hc
    cases hc

/-- C5 amended: a non-no-op invocation does not always append-or-raise: a
pending-read error is caught, printed and swallowed, returning normally
with nothing appended (first conjunct); a snapshot is appended only when
the final append succeeds (second conjunct), and when the append raises the
source catches and prints the exception, returning normally with the
computed outcomes silently discarded (third conjunct).  No `SettlementError`
exists in the source. -/
theorem settlement_contract_amended (env : SettleEnv) :
    ((match env.ledgerRead with
      | .ok lines => alreadySettled env.today_date lines
      | .error _ => false) = false →
      env.pendingExists = true → env.pendingRead = .error () →
      run_daily_settlement env = .readError) ∧
    (∀ r, run_daily_settlement env = .saved r → env.appendOk = true) ∧
    (env.appendOk = false → ∀ r, run_daily_settlement env ≠ .saved r) := by
  refine ⟨?_, ?_, ?_⟩
  · intro hhit hex hread
    unfold run_daily_settlement
    rw [hhit, hread]
    simp [hex]
  · intro r h
    exact (run_saved_form env r h).2
  · intro hap r h
    rw [(run_saved_form env r h).2] at hap
    cases hap

/-- C7 counterexample: a parsed pending order with no `timestamp` key makes
the sort key raise an uncaught `KeyError` — the run crashes instead of
skipping the entry (first conjunct); and a well-formed cn-market intent
whose quantity is not a multiple of 100 is not skipped: it is settled like
any other intent and lands in the trade-outcome list as `Filled` (second
conjunct). -/
theorem malformed_intent_counterexample :
    run_daily_settlement envNoTimestamp = .crashed ∧
    savedTradeStatuses (run_daily_settlement envOddLot) = some ["Filled"] := by
  constructor
  · rfl
  · simp only [run_daily_settlement, envOddLot, sortRawOrders, alreadySettled,
      List.filterMap, List.mergeSort, extractAll, RawOrder.extract]
    norm_num [extractAll, RawOrder.extract, settleLoop, processOrder, Dict.get,
      Dict.find, Dict.set, save_position_record, savedTradeStatuses,
      filledBuyOutcome]

/-- C7 amended: the engine only skips pending-order lines that fail JSON
parsing — the run depends on the pending file only through its parseable
lines (first conjunct) — while a parsed entry missing a required field
(such as `timestamp`) raises an uncaught `KeyError` that aborts the whole
run with nothing appended (second conjunct); a CN quantity that is not a
multiple of 100 is settled as an ordinary intent, not skipped. -/
theorem malformed_intent_amended (env : SettleEnv) :
    (∀ rawLines rawLines₂ : List (Option RawOrder),
      env.pendingRead = .ok rawLines →
      rawLines.filterMap id = rawLines₂.filterMap id →
      run_daily_settlement env =
        run_daily_settlement { env with pendingRead := .ok rawLines₂ }) ∧
    (∀ (rawLines : List (Option RawOrder)) (raw : RawOrder),
      (match env.ledgerRead with
        | .ok lines => alreadySettled env.today_date lines
        | .error _ => false) = false →
      env.pendingExists = true →
      env.pendingRead = .ok rawLines →
      raw ∈ rawLines.filterMap id → raw.extract = none →
      run_daily_settlement env = .crashed) := by
  constructor
  · intro rawLines rawLines₂ hread hfm
    unfold run_daily_settlement
    rw [hread]
    simp only
    rw [hfm]
    rfl
  · intro rawLines raw hhit hex hread hmem hraw
    unfold run_daily_settlement
    rw [hhit, hread]
    simp only [hex, Bool.not_true, Bool.false_eq_true, if_false, if_neg]
    have hne : (rawLines.filterMap id).isEmpty = false := by
      cases hfm : rawLines.filterMap id with
      | nil => rw [hfm] at hmem; simp at hmem
      | cons a as => rfl
    rw [hne]
    simp only [Bool.false_eq_true, if_false]
    by_cases hts : (rawLines.filterMap id).any (fun rw => rw.timestamp?.isNone)
    · rw [if_pos hts]
    · rw [if_neg hts]
      have : extractAll (sortRawOrders (rawLines.filterMap id)) = none := by
        refine extractAll_eq_none _ raw ?_ hraw
        rw [sortRawOrders, List.mem_mergeSort]
        exact hmem
      rw [this]

/-- The market the engine passes to `get_high_low_prices`: the market of
the first order in sorted order (with `'us'` as the vacuous default). -/
def batchMarket (rawLines : List (Option RawOrder)) : String :=
  match extractAll (sortRawOrders (rawLines.filterMap id)) with
  | some orders =>
    match orders.head? with
    | some o => o.market
    | none => "us"
  | none => "us"

/-- C9: Per-intent market governs the trading rule while the batch market
governs the price fetch.  The run consults the oracle only at the market of
the first intent in sorted order: two oracles that agree there give
identical runs (first conjunct).  The sellable quantity of a non-cn intent
is always its full holdings — the T+0 rule keyed on the intent's own
`market` field, not the batch's (second conjunct) — and a non-cn intent
never touches the bought-today counter (third conjunct), so a us-market
sell is treated as T+0 even in a batch whose first intent is cn-market. -/
theorem market_semantics (env : SettleEnv) :
    (∀ (rawLines : List (Option RawOrder)) (g : String → MarketData),
      env.pendingRead = .ok rawLines →
      (∀ s, g (batchMarket rawLines) s = env.oracle (batchMarket rawLines) s) →
      run_daily_settlement { env with oracle := g } = run_daily_settlement env) ∧
    (∀ (st : LoopState) (o : Order), o.market ≠ "cn" →
      sellableQty st o = st.position.get o.symbol 0) ∧
    (∀ (md : MarketData) (st st' : LoopState) (o : Order),
      processOrder md st o = .ok st' → o.market ≠ "cn" →
      st'.boughtToday = st.boughtToday) := by
  refine ⟨?_, ?_, ?_⟩
  · intro rawLines g hread hagree
    have hg : g (batchMarket rawLines) = env.oracle (batchMarket rawLines) :=
      funext hagree
    unfold run_daily_settlement
    rw [hread]
    simp only
    cases hmap : extractAll (sortRawOrders (rawLines.filterMap id)) with
    | none => rfl
    | some orders =>
      have hbm : batchMarket rawLines =
          (match orders.head? with
          | some o => o.market
          | none => "us") := by
        rw [batchMarket, hmap]
      rw [hbm] at hg
      simp only []
      rw [hg]
      rfl
  · intro st o hm
    rw [sellableQty, if_neg hm]
  · intro md st st' o h hm
    rcases processOrder_cases md st o st' h with
      ⟨-, hbe⟩ | ⟨-, -, -, hbe⟩ | ⟨-, -, -, hbe⟩
    · exact hbe
    · rw [hbe, if_neg hm]
    · exact hbe

/-- C8 counterexample: a fully valid buy — positive integer amount 100,
positive limit price 150, lot-size condition satisfied — still returns an
error dict with no order appended when the pending-file write raises
(tool_trade_limit.py wraps the append in `try/except` and returns
`{"error": f"Failed to record order: {e}", ...}`), refuting the claim that
every such call appends exactly one order record and returns
`"OrderPlaced"`. -/
theorem intake_validation_counterexample :
    (0 : ℤ) < 100 ∧ (0 : ℚ) < 150 ∧ (100 : ℤ) % 100 = 0 ∧
    place_limit_buy_order "AAPL" 100 150 1 (some "No space left on device")
      = .error ("Failed to record order: " ++ "No space left on device") ∧
    placedOrder (place_limit_buy_order "AAPL" 100 150 1
      (some "No space left on device")) = none := by
  have hlot : ¬ ((if ("AAPL".endsWith ".SH" || "AAPL".endsWith ".SZ")
      then "cn" else "us") = "cn" ∧ (100 : ℤ) % 100 ≠ 0) := by
    rintro ⟨-, h⟩
    exact h (by decide)
  have heq : place_limit_buy_order "AAPL" 100 150 1
      (some "No space left on device")
      = .error ("Failed to record order: " ++ "No space left on device") := by
    rw [place_limit_buy_order.eq_def, if_neg (by decide : ¬ (100 : ℤ) ≤ 0),
      if_neg (by decide : ¬ (150 : ℚ) ≤ 0), if_neg hlot]
  exact ⟨by decide, by decide, by decide, heq, by rw [heq]; rfl⟩

/-- C8 amended: Intake validation.  With the types the source annotates
(`amount : int`, `limit_price : float`), a call with a non-positive amount,
a non-positive limit price, or a CN-market symbol (suffix `.SH`/`.SZ`) and
an amount that is not a multiple of 100, returns an error dict and appends
nothing, for both the buy and the sell tool (first conjunct); any other
call appends exactly one order record carrying the given symbol, amount and
limit price, the side's action, and the market derived from the symbol
suffix, returning status `"OrderPlaced"` — provided the append to the
pending-orders file succeeds (second conjunct); if that write raises, even
a valid call returns an error dict (`"Failed to record order: ..."`) with
no order appended (third conjunct). -/
theorem intake_validation (symbol : String) (amount : ℤ) (limit_price : ℚ)
    (ts : ℚ) (writeError : Option String) :
    ((amount ≤ 0 ∨ limit_price ≤ 0 ∨
        (marketOf symbol = "cn" ∧ amount % 100 ≠ 0)) →
      (∃ m, place_limit_buy_order symbol amount limit_price ts writeError
        = .error m) ∧
      (∃ m, place_limit_sell_order symbol amount limit_price ts writeError
        = .error m)) ∧
    (0 < amount → 0 < limit_price →
      (marketOf symbol = "cn" → amount % 100 = 0) →
      writeError = none →
      place_limit_buy_order symbol amount limit_price ts writeError =
        .placed "OrderPlaced"
          ⟨ts, "buy", symbol, (amount : ℚ), limit_price, marketOf symbol⟩ ∧
      place_limit_sell_order symbol amount limit_price ts writeError =
        .placed "OrderPlaced"
          ⟨ts, "sell", symbol, (amount : ℚ), limit_price, marketOf symbol⟩) ∧
    (0 < amount → 0 < limit_price →
      (marketOf symbol = "cn" → amount % 100 = 0) →
      ∀ e, writeError = some e →
      place_limit_buy_order symbol amount limit_price ts writeError
          = .error ("Failed to record order: " ++ e) ∧
      place_limit_sell_order symbol amount limit_price ts writeError
          = .error ("Failed to record order: " ++ e) ∧
      placedOrder (place_limit_buy_order symbol amount limit_price ts
        writeError) = none ∧
      placedOrder (place_limit_sell_order symbol amount limit_price ts
        writeError) = none) := by
  refine ⟨?_, ?_, ?_⟩
  · intro hbad
    rcases hbad with hamt | hlp | ⟨hcn, hlot⟩
    · refine ⟨⟨"Amount must be positive. You tried to buy " ++ toString amount ++ " shares.", ?_⟩, ⟨"Amount must be positive. You tried to sell " ++ toString amount ++ " shares.", ?_⟩⟩
      · rw [place_limit_buy_order.eq_def, if_pos hamt]
      · rw [place_limit_sell_order.eq_def, if_pos hamt]
    · by_cases hamt : amount ≤ 0
      · refine ⟨⟨"Amount must be positive. You tried to buy " ++ toString amount ++ " shares.", ?_⟩, ⟨"Amount must be positive. You tried to sell " ++ toString amount ++ " shares.", ?_⟩⟩
        · rw [place_limit_buy_order.eq_def, if_pos hamt]
        · rw [place_limit_sell_order.eq_def, if_pos hamt]
      · refine ⟨⟨"Limit price must be positive. You tried to set limit price " ++
              toString limit_price ++ ".", ?_⟩,
          ⟨"Limit price must be positive. You tried to set limit price " ++
              toString limit_price ++ ".", ?_⟩⟩
        · rw [place_limit_buy_order.eq_def, if_neg hamt, if_pos hlp]
        · rw [place_limit_sell_order.eq_def, if_neg hamt, if_pos hlp]
    · by_cases hamt : amount ≤ 0
      · refine ⟨⟨"Amount must be positive. You tried to buy " ++ toString amount ++ " shares.", ?_⟩, ⟨"Amount must be positive. You tried to sell " ++ toString amount ++ " shares.", ?_⟩⟩
        · rw [place_limit_buy_order.eq_def, if_pos hamt]
        · rw [place_limit_sell_order.eq_def, if_pos hamt]
      · by_cases hlp : limit_price ≤ 0
        · refine ⟨⟨"Limit price must be positive. You tried to set limit price " ++
              toString limit_price ++ ".", ?_⟩,
            ⟨"Limit price must be positive. You tried to set limit price " ++
              toString limit_price ++ ".", ?_⟩⟩
          · rw [place_limit_buy_order.eq_def, if_neg hamt, if_pos hlp]
          · rw [place_limit_sell_order.eq_def, if_neg hamt, if_pos hlp]
        · rw [marketOf] at hcn
          refine ⟨⟨"Chinese A-shares must be traded in multiples of 100 shares (1 lot = 100 shares). You tried to buy " ++
              toString amount ++ " shares.", ?_⟩,
            ⟨"Chinese A-shares must be traded in multiples of 100 shares (1 lot = 100 shares). You tried to sell " ++
              toString amount ++ " shares.", ?_⟩⟩
          · rw [place_limit_buy_order.eq_def, if_neg hamt, if_neg hlp,
              if_pos ⟨hcn, hlot⟩]
          · rw [place_limit_sell_order.eq_def, if_neg hamt, if_neg hlp,
              if_pos ⟨hcn, hlot⟩]
  · intro hamt hlp hlot hw
    have h1 : ¬ amount ≤ 0 := not_le.mpr hamt
    have h2 : ¬ limit_price ≤ 0 := not_le.mpr hlp
    have h3 : ¬ ((if symbol.endsWith ".SH" || symbol.endsWith ".SZ"
        then "cn" else "us") = "cn" ∧ amount % 100 ≠ 0) := by
      rintro ⟨hc, hl⟩
      exact hl (hlot hc)
    constructor
    · rw [place_limit_buy_order.eq_def, if_neg h1, if_neg h2, if_neg h3, hw]
      rfl
    · rw [place_limit_sell_order.eq_def, if_neg h1, if_neg h2, if_neg h3, hw]
      rfl
  · intro hamt hlp hlot e hw
    have h1 : ¬ amount ≤ 0 := not_le.mpr hamt
    have h2 : ¬ limit_price ≤ 0 := not_le.mpr hlp
    have h3 : ¬ ((if symbol.endsWith ".SH" || symbol.endsWith ".SZ"
        then "cn" else "us") = "cn" ∧ amount % 100 ≠ 0) := by
      rintro ⟨hc, hl⟩
      exact hl (hlot hc)
    have hbuy : place_limit_buy_order symbol amount limit_price ts writeError
        = .error ("Failed to record order: " ++ e) := by
      rw [place_limit_buy_order.eq_def, if_neg h1, if_neg h2, if_neg h3, hw]
    have hsell : place_limit_sell_order symbol amount limit_price ts writeError
        = .error ("Failed to record order: " ++ e) := by
      rw [place_limit_sell_order.eq_def, if_neg h1, if_neg h2, if_neg h3, hw]
    exact ⟨hbuy, hsell, by rw [hbuy]; rfl, by rw [hsell]; rfl⟩

/-! ## Concrete data for the witnesses -/

/-- Market data giving AAPL a realized low of 145 and high of 165. -/
def mdW : MarketData :=
  fun s => if s = "AAPL" then some (some ⟨some 145, some 165⟩) else none

/-- Market data giving 600519.SH a realized low of 1490 and high of 1510. -/
def mdCn : MarketData :=
  fun s => if s = "600519.SH" then some (some ⟨some 1490, some 1510⟩) else none

/-- A us-market buy of 10 AAPL at limit 150, submitted at t = 1. -/
def buyW : Order := ⟨1, "buy", "AAPL", 10, 150, "us"⟩

/-- A us-market sell of 5 AAPL at limit 160, submitted at t = 2. -/
def sellW : Order := ⟨2, "sell", "AAPL", 5, 160, "us"⟩

/-- The two-intent us-market batch of the specification's worked scenario. -/
def ordersW : List Order := [buyW, sellW]

/-- Starting loop state: cash 10000, no holdings, nothing bought today. -/
def stW : LoopState := ⟨[("CASH", 10000)], [], []⟩

/-- The state after the worked scenario's buy fills. -/
def stMidW : LoopState := ⟨[("CASH", 8500), ("AAPL", 10)], [], [filledBuyOutcome buyW]⟩

/-- A cn-market state holding 100 shares of 600519.SH, all bought today. -/
def stCn : LoopState := ⟨[("CASH", 0), ("600519.SH", 100)], [("600519.SH", 100)], []⟩

/-- A cn-market sell of the 100 shares bought the same day. -/
def sellCn : Order := ⟨2, "sell", "600519.SH", 100, 1505, "cn"⟩

/-- The cn-market batch: buy 100 then sell 100 of 600519.SH the same day. -/
def ordersCn : List Order :=
  [⟨1, "buy", "600519.SH", 100, 1500, "cn"⟩, sellCn]

/-- A ledger record showing settlement already ran on 2025-01-02. -/
def recW : PositionRecord :=
  ⟨"2025-01-02", 1, ⟨"daily_settlement", []⟩, [("CASH", 1000)]⟩

/-- An environment whose ledger already holds today's settlement record. -/
def envSettled : SettleEnv :=
  ⟨"2025-01-02", [("CASH", 1000)], 1, .ok [some recW], true, .ok [],
    fun _ => fun _ => none, true⟩

/-- A parsed pending order with every field except `market`. -/
def rawNoMarket : RawOrder :=
  ⟨some 1, some "buy", some "AAPL", some 10, some 150, none⟩

/-- An environment whose pending file holds one order missing its
`market` field. -/
def envNoMarket : SettleEnv :=
  ⟨"2025-01-02", [("CASH", 1000)], 0, .ok [], true, .ok [some rawNoMarket],
    fun _ => fun _ => none, true⟩

/-- A market-independent price oracle for the mixed-market batch. -/
def oracleBoth : String → MarketData :=
  fun _ => fun s =>
    if s = "AAPL" then some (some ⟨some 145, some 165⟩)
    else if s = "600519.SH" then some (some ⟨some 1490, some 1510⟩)
    else none

/-- An oracle answering only for the cn market. -/
def oracleCnOnly : String → MarketData :=
  fun m => fun s => if m = "cn" then oracleBoth m s else none

/-- The raw lines of a mixed-market batch whose first intent is cn-market. -/
def rawsMixed : List (Option RawOrder) :=
  [some ⟨some 1, some "buy", some "600519.SH", some 100, some 1500, some "cn"⟩,
   some ⟨some 2, some "buy", some "AAPL", some 10, some 150, some "us"⟩,
   some ⟨some 3, some "sell", some "AAPL", some 5, some 160, some "us"⟩]

/-- An environment settling the mixed-market batch. -/
def envMixed : SettleEnv :=
  ⟨"2025-01-02", [("CASH", 1000000)], 0, .ok [], true, .ok rawsMixed,
    oracleBoth, true⟩

/-! ## Witnesses -/

/-- C1 witness: on a concrete environment whose ledger already holds a
settlement record for 2025-01-02, the run is a no-op. -/
theorem settlement_idempotent_witness :
    run_daily_settlement envSettled = .skipped :=
  settlement_idempotent.1 envSettled [some recW] recW rfl (by decide) rfl rfl

/-- C2 witness: the worked scenario's two-intent batch settles with a
non-negative final position. -/
theorem settlement_nonneg_witness :
    ∃ st', settleLoop mdW (ordersW.take 2) ⟨[("CASH", 10000)], [], []⟩ = .ok st' ∧
      st'.position.Nonneg :=
  settlement_nonneg.1 mdW ordersW [("CASH", 10000)] (by decide)
    (Dict.nonneg_of_forall (by decide)) 2

/-- C3 witness: the worked scenario's buy fills, debiting 1500 cash and
crediting 10 AAPL. -/
theorem buy_semantics_witness :
    ∃ st', processOrder mdW stW buyW = .ok st' ∧
      st'.position.get "CASH" 0
        = stW.position.get "CASH" 0 - buyW.limit_price * buyW.amount ∧
      st'.position.get buyW.symbol 0
        = stW.position.get buyW.symbol 0 + buyW.amount := by
  obtain ⟨st', h1, h2, h3, -⟩ :=
    (buy_semantics mdW stW buyW ⟨some 145, some 165⟩ 145 165 rfl rfl rfl rfl
      (by decide) (by decide) (by decide)).1 (by decide)
      (by norm_num [stW, buyW, Dict.get])
  exact ⟨st', h1, h2, h3⟩

/-- C4 witness: the cn-market sell of 100 shares bought the same day fails
with the T+1 outcome although total holdings are 100. -/
theorem sell_semantics_witness :
    processOrder mdCn stCn sellCn = .ok ⟨stCn.position, stCn.boughtToday,
      stCn.log ++ [failedSharesOutcome sellCn (stCn.position.get sellCn.symbol 0)
        (sellableQty stCn sellCn)
        (if sellCn.market = "cn" then "T+1 restriction"
        else "Insufficient shares")]⟩ :=
  ((sell_semantics mdCn stCn sellCn ⟨some 1490, some 1510⟩ 1490 1510 rfl rfl
    rfl rfl (by decide) (by decide) (by decide) (by decide)).2.2.1
    (by decide) (by simp [sellableQty, stCn, sellCn, Dict.get]; try norm_num)).1

/-- C5 witness (amended claim): the concrete read-error environment returns
silently with nothing appended. -/
theorem settlement_contract_amended_witness :
    run_daily_settlement envReadError = .readError :=
  (settlement_contract_amended envReadError).1 rfl rfl rfl

/-- C6 witness: in the worked scenario the sorted batch splits before the
sell, which is evaluated in exactly the state the buy produced
(cash 8500, AAPL 10). -/
theorem intent_ordering_witness :
    settleLoop mdW (sortOrders ordersW) stW =
      match processOrder mdW stMidW sellW with
      | .error e => .error e
      | .ok st2 => settleLoop mdW [] st2 :=
  (intent_ordering ordersW [] [] mdW stW).2.2.2.2 [buyW] sellW [] stMidW
    (by rw [sortOrders]; exact List.mergeSort_of_sorted (by decide))
    (by simp [settleLoop, processOrder, mdW, stW, buyW, stMidW,
      Dict.get, Dict.find, Dict.set, filledBuyOutcome]; try norm_num)

/-- C7 witness (amended claim): a pending order whose `market` field is
missing crashes the run with an uncaught `KeyError`. -/
theorem malformed_intent_amended_witness :
    run_daily_settlement envNoMarket = .crashed :=
  (malformed_intent_amended envNoMarket).2 [some rawNoMarket] rawNoMarket
    rfl rfl rfl (by decide) rfl

/-- C8 witness (amended claim): a valid cn-market order of 100 shares at
limit 1500, with the pending-file append succeeding, places one pending
record on each side. -/
theorem intake_validation_witness :
    place_limit_buy_order "600519.SH" 100 1500 1 none =
      .placed "OrderPlaced"
        ⟨1, "buy", "600519.SH", (100 : ℚ), 1500, marketOf "600519.SH"⟩ ∧
    place_limit_sell_order "600519.SH" 100 1500 1 none =
      .placed "OrderPlaced"
        ⟨1, "sell", "600519.SH", (100 : ℚ), 1500, marketOf "600519.SH"⟩ :=
  (intake_validation "600519.SH" 100 1500 1 none).2.1 (by decide) (by decide)
    (fun _ => by decide) rfl

/-- C9 witness: for the mixed-market batch (first intent cn-market), an
oracle that only answers for the cn market gives the same run as the full
oracle — the price fetch uses only the first intent's market — and the
us-market sell's sellable quantity ignores the bought-today counter. -/
theorem market_semantics_witness :
    run_daily_settlement { envMixed with oracle := oracleCnOnly } =
      run_daily_settlement envMixed ∧
    sellableQty stCn sellW = stCn.position.get sellW.symbol 0 := by
  constructor
  · refine (market_semantics envMixed).1 rawsMixed oracleCnOnly rfl ?_
    have hbm : batchMarket rawsMixed = "cn" := by
      simp [batchMarket, rawsMixed, sortRawOrders, List.mergeSort,
        List.merge, extractAll, RawOrder.extract]
    rw [hbm]
    intro s
    rfl
  · exact (market_semantics envMixed).2.1 stCn sellW (by decide)

/-- C10 witness: settling the cn batch (buy 100, then sell 100 the same
day) keeps every bought-today counter at or below the holdings, and every
cn sellable quantity non-negative. -/
theorem bought_today_le_holdings_witness :
    ∃ st', settleLoop mdCn (ordersCn.take 2) ⟨[("CASH", 1000000)], [], []⟩
        = .ok st' ∧
      (∀ s, st'.boughtToday.get s 0 ≤ st'.position.get s 0) ∧
      (∀ o : Order, o.market = "cn" → 0 ≤ sellableQty st' o) :=
  bought_today_le_holdings mdCn ordersCn [("CASH", 1000000)] (by decide)
    (by decide) (Dict.nonneg_of_forall (by decide)) 2

end AITrader
